import Mathlib

/-!
Verification of the dae-cpp solver support code.

Shallow embedding of the C++ sources:
 - `solver_options.h` / `solver_options.cpp` (`SolverOptions`, `check_options`,
   `set_iparm_for_pardiso`);
 - `jacobian-matrix.hpp` (`JacobianMatrixShape`, `JacobianAutomatic`);
 - `solution-manager.hpp` (`SolutionManager`, `SolutionHolder`, `Solution`);
 - the `TEST(RHS, Definition)` unit test.

`double` values are embedded as rationals: every operation the embedded code
performs on them (copies, comparisons, a single product) is exact.  A sparse
matrix under construction is embedded as the list of `(row, column, value)`
triplets in insertion order.  External facilities (the `autodiff` package, the
C++ standard library algorithms, the PARDISO backend) are kept abstract or
modelled from their documented contracts, as noted at each definition.
-/

namespace daecpp

/-- The `state_vector` type (`std::vector<double>`), embedded with exact
rational entries. -/
abbrev state_vector := List ℚ

/-! ## SolverOptions: `solver_options.h` and `solver_options.cpp` -/

/-- The `SolverOptions` class of `solver_options.h`: its public fields with
their default member initializers (`atol = 1.0e-6`, `dt_init = 0.1`) and a
defaulted constructor. -/
structure SolverOptions where
  atol : ℚ := 1 / 1000000
  dt_init : ℚ := 1 / 10

/-- Modelled from the spec: the constant `BDF_MAX_ORDER` is not defined in the
provided sources; the spec states the BDF order is "clamped to `[1,6]`", so
the maximal order is 6. -/
def BDF_MAX_ORDER : Int := 6

/-- `SolverOptions::check_options` (solver_options.cpp), acting on the
`bdf_order` member: if `bdf_order < 1 || bdf_order > BDF_MAX_ORDER`, the
solver falls back to BDF-1 by assigning `bdf_order = 1`; otherwise the member
is left unchanged. -/
def check_options (bdf_order : Int) : Int :=
  if bdf_order < 1 ∨ bdf_order > BDF_MAX_ORDER then 1 else bdf_order

/-- A C array of `MKL_INT` accessed through a pointer, embedded as a function
from index to value; `writeArr a i v` is the assignment `a[i] = v`. -/
def writeArr (a : ℕ → Int) (i : ℕ) (v : Int) : ℕ → Int :=
  fun k => if k = i then v else a k

/-- The initial loop of `set_iparm_for_pardiso`:
`for(i = 0; i < 64; i++) iparm[i] = 0`. -/
def zero_iparm (a : ℕ → Int) : ℕ → Int :=
  (List.range 64).foldl (fun b i => writeArr b i 0) a

/-- A sequence of array assignments `a[i] = v`, performed in list order. -/
def applyWrites (ws : List (ℕ × Int)) (a : ℕ → Int) : ℕ → Int :=
  ws.foldl (fun b w => writeArr b w.1 w.2) a

/-- The assignments of `SolverOptions::set_iparm_for_pardiso`
(solver_options.cpp) between the zeroing loop and the
`if(iparm[23] == 1)` conditional, in source order:
`iparm[0] = 1; iparm[1] = 3; iparm[3] = preconditioned_CGS; iparm[4] = 0;
iparm[5] = 0; iparm[6] = 0; iparm[7] = refinement_steps; iparm[9] = 13;
iparm[10] = 1; iparm[11] = 0; iparm[12] = 1; iparm[13] = 0; iparm[14] = 0;
iparm[15] = 0; iparm[16] = 0; iparm[17] = 0; iparm[18] = 0; iparm[19] = 0;
iparm[23] = parallel_fact_control`. -/
def iparm_writes1 (preconditioned_CGS refinement_steps
    parallel_fact_control : Int) (a0 : ℕ → Int) : ℕ → Int :=
  applyWrites
    [(0, 1), (1, 3), (3, preconditioned_CGS), (4, 0), (5, 0), (6, 0),
     (7, refinement_steps), (9, 13), (10, 1), (11, 0), (12, 1), (13, 0),
     (14, 0), (15, 0), (16, 0), (17, 0), (18, 0), (19, 0),
     (23, parallel_fact_control)] a0

/-- The assignments of `SolverOptions::set_iparm_for_pardiso` after the
`if(iparm[23] == 1)` conditional, in source order:
`iparm[24] = parallel_solve_control; iparm[26] = 0; iparm[27] = 0;
iparm[29] = 0; iparm[30] = 0; iparm[33] = 0; iparm[34] = 0;
iparm[59] = 0`. -/
def iparm_writes2 (parallel_solve_control : Int) (a20 : ℕ → Int) : ℕ → Int :=
  applyWrites
    [(24, parallel_solve_control), (26, 0), (27, 0), (29, 0), (30, 0),
     (33, 0), (34, 0), (59, 0)] a20

/-- The full sequence of assignments of `SolverOptions::set_iparm_for_pardiso`
after the zeroing loop: the first block, then — when `iparm[23] == 1` — the
`iparm[10] = 0; iparm[12] = 0` overrides disabling scaling and matching, then
the second block.  `preconditioned_CGS`, `refinement_steps`,
`parallel_fact_control` and `parallel_solve_control` are the `SolverOptions`
members read by the routine. -/
def iparm_writes (preconditioned_CGS refinement_steps parallel_fact_control
    parallel_solve_control : Int) (a0 : ℕ → Int) : ℕ → Int :=
  let a19 := iparm_writes1 preconditioned_CGS refinement_steps
    parallel_fact_control a0
  let a20 := if a19 23 = 1 then writeArr (writeArr a19 10 0) 12 0 else a19
  iparm_writes2 parallel_solve_control a20

/-- `SolverOptions::set_iparm_for_pardiso` (solver_options.cpp): sets all 64
entries of `iparm` to 0, then performs the documented PARDISO parameter
assignments. -/
def set_iparm_for_pardiso (preconditioned_CGS refinement_steps
    parallel_fact_control parallel_solve_control : Int) (iparm : ℕ → Int) : ℕ → Int :=
  iparm_writes preconditioned_CGS refinement_steps parallel_fact_control
    parallel_solve_control (zero_iparm iparm)

/-! ## Jacobian helper classes: `jacobian-matrix.hpp` -/

/-- The mutable data of `JacobianMatrixShape` (jacobian-matrix.hpp): the array
`m_Jn` of user-declared non-zero positions (in declaration order) and the
sparse-matrix size estimation `m_N_elements`.  (The copied RHS member `m_rhs`
enters only through the abstract derivative facility below.) -/
structure JacobianMatrixShape where
  m_Jn : List (ℕ × ℕ)
  m_N_elements : ℕ

/-- `JacobianMatrixShape::add_element(ind_i, ind_j)`: appends the position
`(ind_i, ind_j)` to `m_Jn`. -/
def add_element (s : JacobianMatrixShape) (ind_i ind_j : ℕ) : JacobianMatrixShape :=
  { s with m_Jn := s.m_Jn ++ [(ind_i, ind_j)] }

/-- `JacobianMatrixShape::add_element(ind_i, ind_j_vector)`: appends
`(ind_i, j)` for each `j` in the column vector, in order. -/
def add_element_row (s : JacobianMatrixShape) (ind_i : ℕ) (ind_j : List ℕ) :
    JacobianMatrixShape :=
  { s with m_Jn := s.m_Jn ++ ind_j.map fun j => (ind_i, j) }

/-- A fresh `JacobianMatrixShape`: the constructor leaves `m_Jn` empty; the
hint `m_N_elements` starts at 0 but may have been set by `reserve` or by a
previous call, so it is kept general. -/
def shape_init (hint : ℕ) : JacobianMatrixShape :=
  ⟨[], hint⟩

/-- The shape accumulated by calling `add_element` once per position of `ps`
on a fresh object. -/
def shape_from (ps : List (ℕ × ℕ)) (hint : ℕ) : JacobianMatrixShape :=
  ps.foldl (fun s p => add_element s p.1 p.2) (shape_init hint)

/-- `JacobianMatrixShape::operator()(J, x, t)` (jacobian-matrix.hpp): calls
`J.reserve(m_N_elements)` when the estimation is non-zero, then for each
declared position `(i, j)` of `m_Jn`, in order, inserts into `J` the autodiff
derivative of equation `i` with respect to `x[j]`; finally updates
`m_N_elements` to the declared count.  The `autodiff` package is external and
kept abstract: `d i j` is the derivative it returns for position `(i, j)` at
the given `(x, t)`.  Returns the arguments of the `reserve` calls made, the
inserted triplets in insertion order, and the updated object. -/
def shape_call (s : JacobianMatrixShape) (d : ℕ → ℕ → ℚ) :
    List ℕ × List (ℕ × ℕ × ℚ) × JacobianMatrixShape :=
  ( if s.m_N_elements ≠ 0 then [s.m_N_elements] else [],
    s.m_Jn.map fun p => (p.1, p.2, d p.1 p.2),
    { s with m_N_elements := s.m_Jn.length } )

/-- `JacobianAutomatic::operator()(J, x, t)` (jacobian-matrix.hpp): the dense
`size × size` Jacobian produced by `autodiff::jacobian` (external facility,
kept abstract as `jac`, with `jac i j` the dense entry at row `i`, column `j`)
is scanned with `j` as the outer and `i` as the inner loop; the entry
`(i, j, val)` is inserted into `J` exactly when
`|val| > DAECPP_SPARSE_MATRIX_ELEMENT_TOLERANCE` (the tolerance constant is
kept abstract as `tol`).  Returns the inserted triplets in insertion order. -/
def jacobian_automatic_call (size : ℕ) (tol : ℚ) (jac : ℕ → ℕ → ℚ) :
    List (ℕ × ℕ × ℚ) :=
  (List.range size).flatMap fun j =>
    (List.range size).filterMap fun i =>
      if |jac i j| > tol then some (i, j, jac i j) else none

/-! ## Solution Manager classes: `solution-manager.hpp` -/

/-- `SolutionManager::operator()(x, t)`: the default Solution Manager does
nothing and returns 0. -/
def solution_manager_call (x : state_vector) (t : ℚ) : Int := 0

/-- The `SolutionHolder` data (solution-manager.hpp): the recorded solution
vectors `x` and the corresponding times `t`. -/
structure SolutionHolder where
  x : List state_vector
  t : List ℚ

/-- Modelled from the C++ standard library contract of `std::binary_search`:
on a sorted range it returns whether an element equivalent to the value is
present (equivalence under `<` on exact rationals is equality). -/
def std_binary_search (l : List ℚ) (v : ℚ) : Bool :=
  l.contains v

/-- Modelled from the C++ standard library contract of `std::sort`: the range
is permuted into ascending order. -/
def std_sort (l : List ℚ) : List ℚ :=
  l.mergeSort

/-- `Solution::Solution(sol, t_output)` (solution-manager.hpp): the private
copy `_t_out` of `t_output`, sorted when `t_output` is non-empty. -/
def solution_t_out (t_output : List ℚ) : List ℚ :=
  if t_output.length > 0 then std_sort t_output else t_output

/-- `Solution::operator()(x_, t_)` (solution-manager.hpp): when `_t_out` is
non-empty and `t_` is not found in it by binary search, returns 0 without
recording; otherwise appends `x_` to the holder's `x` and `t_` to its `t` and
returns 0.  Returns the updated holder together with the returned integer. -/
def solution_call (t_out : List ℚ) (sol : SolutionHolder) (x_ : state_vector)
    (t_ : ℚ) : SolutionHolder × Int :=
  if t_out.length > 0 ∧ ¬ std_binary_search t_out t_ then (sol, 0)
  else ({ x := sol.x ++ [x_], t := sol.t ++ [t_] }, 0)

/-! ## The RHS unit test: `TEST(RHS, Definition)` -/

/-- The `TestRHS` functor of the RHS unit test: `f[0] = x[0]; f[1] = x[1] * t`,
written into the caller-provided output vector `f` (overwriting its prior
contents). -/
def test_rhs (f x : state_vector) (t : ℚ) : state_vector :=
  (f.set 0 (x.getD 0 0)).set 1 (x.getD 1 0 * t)

/-! ## Time Integration Driver (modelled from the spec) -/

/-- Modelled from the spec: one Controller outcome as seen by the Driver
(§4.5, §4.6 of the spec; the Controller is not among the provided sources).
The Controller hands the Driver either an accepted step `(x, t)` or a fatal
failure; rejected attempts are retried internally and never reach the
Driver. -/
inductive StepResult where
  | accepted (x : state_vector) (t : ℚ)
  | fatal
deriving DecidableEq

/-- Modelled from the spec: the status the Driver reports on termination
(§4.6 of the spec). -/
inductive DriverStatus where
  | reachedEnd
  | stoppedByCaller
  | fatalFailure
deriving DecidableEq

/-- Modelled from the spec: the Time Integration Driver outer loop (§4.6 of
the spec; the Driver is not among the provided sources).  The Driver consumes
Controller outcomes in order: after each accepted step it invokes the Solution
Manager callback `cb` with `(x, t)`; if the callback returns non-zero it
terminates immediately with a caller-requested-stop status (not an error); a
fatal Controller failure terminates the run with a failure status.  Returns
the list of callback invocations, in order, and the final status. -/
def runDriver (cb : state_vector → ℚ → Int) :
    List StepResult → List (state_vector × ℚ) × DriverStatus
  | [] => ([], DriverStatus.reachedEnd)
  | StepResult.fatal :: _ => ([], DriverStatus.fatalFailure)
  | StepResult.accepted x t :: rest =>
      if cb x t ≠ 0 then ([(x, t)], DriverStatus.stoppedByCaller)
      else
        let r := runDriver cb rest
        ((x, t) :: r.1, r.2)

/-! ## Helper lemmas -/

theorem std_binary_search_iff_mem (l : List ℚ) (v : ℚ) :
    std_binary_search l v = true ↔ v ∈ l := by
  simp [std_binary_search, List.contains]

theorem std_sort_eq_of_perm {l₁ l₂ : List ℚ} (h : l₁.Perm l₂) :
    std_sort l₁ = std_sort l₂ :=
  List.eq_of_perm_of_sorted
    ((List.mergeSort_perm l₁ _).trans (h.trans (List.mergeSort_perm l₂ _).symm))
    (List.sorted_mergeSort' l₁) (List.sorted_mergeSort' l₂)

theorem foldl_add_element (ps : List (ℕ × ℕ)) (s : JacobianMatrixShape) :
    (ps.foldl (fun s p => add_element s p.1 p.2) s).m_Jn = s.m_Jn ++ ps
    ∧ (ps.foldl (fun s p => add_element s p.1 p.2) s).m_N_elements
        = s.m_N_elements := by
  induction ps generalizing s with
  | nil => simp
  | cons p ps ih =>
      obtain ⟨h1, h2⟩ := ih (add_element s p.1 p.2)
      constructor
      · rw [List.foldl_cons, h1]
        simp [add_element]
      · rw [List.foldl_cons, h2]
        rfl

theorem shape_from_spec (ps : List (ℕ × ℕ)) (hint : ℕ) :
    (shape_from ps hint).m_Jn = ps ∧ (shape_from ps hint).m_N_elements = hint := by
  simpa [shape_from, shape_init] using foldl_add_element ps (shape_init hint)

/-! ## Claim theorems -/

/-- Claim C1: `check_options` leaves `bdf_order` unchanged exactly when it
lies in `[1, BDF_MAX_ORDER]` and resets it to exactly 1 (not to the nearest
bound) whenever it lies outside that range; in particular the values 0 and 99
both yield an effective order of 1. -/
theorem check_options_clamp :
    (∀ b : Int, check_options b = if 1 ≤ b ∧ b ≤ BDF_MAX_ORDER then b else 1)
    ∧ check_options 0 = 1 ∧ check_options 99 = 1 := by
  refine ⟨fun b => ?_, by decide, by decide⟩
  simp only [check_options, BDF_MAX_ORDER]
  split_ifs <;> omega

/-- Claim C5: a default-constructed `SolverOptions` has `atol = 1.0e-6` and
`dt_init = 0.1`. -/
theorem solver_options_defaults :
    ({} : SolverOptions).atol = 1 / 1000000
    ∧ ({} : SolverOptions).dt_init = 1 / 10 :=
  ⟨rfl, rfl⟩

/-- Claim C7: the test RHS `f(x,t) = [x[0], x[1]*t]` evaluated on `x = [4, 6]`
produces `f = [4, 6*t]` of length 2, overwriting any prior contents of the
output vector; at `t = 10` it yields `[4, 60]`. -/
theorem test_rhs_spec :
    ∀ (f : state_vector) (t : ℚ), f.length = 2 →
      test_rhs f [4, 6] t = [4, 6 * t]
      ∧ (test_rhs f [4, 6] t).length = 2
      ∧ test_rhs f [4, 6] 10 = [4, 60] := by
  intro f t hf
  obtain ⟨a, b, rfl⟩ := List.length_eq_two.mp hf
  refine ⟨rfl, rfl, ?_⟩
  norm_num [test_rhs]

/-- Witness for C7 at the unit test's concrete input. -/
theorem test_rhs_spec_witness :
    ([0, 0] : state_vector).length = 2
    ∧ test_rhs [0, 0] [4, 6] 10 = [4, 60] :=
  ⟨rfl, (test_rhs_spec [0, 0] 10 rfl).2.2⟩

/-- Claim C8: the default `SolutionManager::operator()` and
`Solution::operator()` both return 0 for every input, so the shipped managers
never trigger the caller-requested-stop path, whether or not the step's time
matched the `t_output` filter. -/
theorem solution_managers_return_zero :
    (∀ (x : state_vector) (t : ℚ), solution_manager_call x t = 0)
    ∧ ∀ (t_out : List ℚ) (sol : SolutionHolder) (x_ : state_vector) (t_ : ℚ),
        (solution_call t_out sol x_ t_).2 = 0 := by
  refine ⟨fun x t => rfl, fun t_out sol x_ t_ => ?_⟩
  unfold solution_call
  split <;> rfl

/-- Claim C9: every call to `Solution::operator()` appends exactly one element
to both the holder's `x` and `t` vectors, or appends to neither; hence the
invariant `x.size() == t.size()` asserted by `SolutionHolder::print` is
preserved by every callback invocation from any state in which it holds. -/
theorem solution_call_append_both_or_neither :
    ∀ (t_out : List ℚ) (sol : SolutionHolder) (x_ : state_vector) (t_ : ℚ),
      (((solution_call t_out sol x_ t_).1.x = sol.x ++ [x_]
          ∧ (solution_call t_out sol x_ t_).1.t = sol.t ++ [t_])
        ∨ (solution_call t_out sol x_ t_).1 = sol)
      ∧ (sol.x.length = sol.t.length →
          (solution_call t_out sol x_ t_).1.x.length
            = (solution_call t_out sol x_ t_).1.t.length) := by
  intro t_out sol x_ t_
  unfold solution_call
  split
  · exact ⟨Or.inr rfl, fun h => h⟩
  · exact ⟨Or.inl ⟨rfl, rfl⟩, fun h => by simp [h]⟩

/-- Witness for C9: the invariant hypothesis holds for the empty holder and is
preserved by a recording call. -/
theorem solution_call_append_witness :
    (SolutionHolder.mk [] []).x.length = (SolutionHolder.mk [] []).t.length
    ∧ (solution_call [] ⟨[], []⟩ [1] 2).1.x.length
        = (solution_call [] ⟨[], []⟩ [1] 2).1.t.length :=
  ⟨rfl, (solution_call_append_both_or_neither [] ⟨[], []⟩ [1] 2).2 rfl⟩

/-- Claim C2: `JacobianAutomatic::operator()` inserts an entry `(i, j, val)`
into the output sparse matrix exactly when the dense Jacobian entry `val` at
`(i, j)` satisfies `|val| > DAECPP_SPARSE_MATRIX_ELEMENT_TOLERANCE` (strict
inequality); entries with magnitude at or below the tolerance are never
inserted. -/
theorem jacobian_automatic_mem :
    ∀ (size : ℕ) (tol : ℚ) (jac : ℕ → ℕ → ℚ) (i j : ℕ) (v : ℚ),
      ((i, j, v) ∈ jacobian_automatic_call size tol jac ↔
        i < size ∧ j < size ∧ v = jac i j ∧ |v| > tol) := by
  intro size tol jac i j v
  simp only [jacobian_automatic_call, List.mem_flatMap, List.mem_filterMap,
    List.mem_range]
  constructor
  · rintro ⟨j', hj', i', hi', h⟩
    by_cases hc : |jac i' j'| > tol
    · rw [if_pos hc] at h
      obtain ⟨rfl, rfl, rfl⟩ : i' = i ∧ j' = j ∧ jac i' j' = v := by
        simpa [Prod.ext_iff] using h
      exact ⟨hi', hj', rfl, hc⟩
    · rw [if_neg hc] at h
      cases h
  · rintro ⟨hi, hj, rfl, hv⟩
    exact ⟨j, hj, i, hi, by rw [if_pos hv]⟩

/-- Claim C3: for every list of positions declared via `add_element`, a call
to `JacobianMatrixShape::operator()` inserts exactly one entry per declared
position, in declaration order, and no entry at any undeclared position;
afterwards `m_N_elements` equals the number of declared positions, and
`J.reserve` is invoked with the previous hint exactly when that hint is
non-zero. -/
theorem shape_call_spec :
    ∀ (ps : List (ℕ × ℕ)) (hint : ℕ) (d : ℕ → ℕ → ℚ),
      (shape_call (shape_from ps hint) d).2.1
          = ps.map (fun p => (p.1, p.2, d p.1 p.2))
      ∧ (∀ e ∈ (shape_call (shape_from ps hint) d).2.1, (e.1, e.2.1) ∈ ps)
      ∧ (shape_call (shape_from ps hint) d).2.2.m_N_elements = ps.length
      ∧ (shape_call (shape_from ps hint) d).1
          = (if hint ≠ 0 then [hint] else []) := by
  intro ps hint d
  obtain ⟨h1, h2⟩ := shape_from_spec ps hint
  refine ⟨by simp [shape_call, h1], ?_, by simp [shape_call, h1], by simp [shape_call, h2]⟩
  intro e he
  simp only [shape_call, h1] at he
  obtain ⟨p, hp, rfl⟩ := List.mem_map.mp he
  simpa using hp

/-- Witness for C3: the membership hypothesis discharged at a concrete
declared position. -/
theorem shape_call_spec_witness :
    (1, 0, (5 : ℚ)) ∈ (shape_call (shape_from [(1, 0)] 3) fun _ _ => 5).2.1
    ∧ ((1 : ℕ), (0 : ℕ)) ∈ [((1 : ℕ), (0 : ℕ))] := by
  have hm : (1, 0, (5 : ℚ)) ∈ (shape_call (shape_from [(1, 0)] 3) fun _ _ => 5).2.1 := by
    rw [(shape_call_spec [(1, 0)] 3 fun _ _ => 5).1]
    simp
  exact ⟨hm, (shape_call_spec [(1, 0)] 3 fun _ _ => 5).2.1 (1, 0, 5) hm⟩

/-- Claim C10: with the sorted private copy built by the `Solution`
constructor, `Solution::operator()` records `(x, t)` exactly when `t_output`
is empty or `t` is exactly equal to some element of `t_output`; and the sorted
copy (hence the set of recorded steps) is invariant under any permutation of
the `t_output` list passed to the constructor. -/
theorem solution_records_iff :
    ∀ (t_output : List ℚ) (sol : SolutionHolder) (x_ : state_vector) (t_ : ℚ),
      ((solution_call (solution_t_out t_output) sol x_ t_).1
          = ⟨sol.x ++ [x_], sol.t ++ [t_]⟩ ↔ (t_output = [] ∨ t_ ∈ t_output))
      ∧ ∀ (l₁ l₂ : List ℚ), l₁.Perm l₂ → solution_t_out l₁ = solution_t_out l₂ := by
  intro t_output sol x_ t_
  constructor
  · rcases t_output with _ | ⟨a, as⟩
    · simp [solution_call, solution_t_out]
    · have hto : solution_t_out (a :: as) = std_sort (a :: as) := by
        simp [solution_t_out]
      have hlen : (std_sort (a :: as)).length > 0 := by
        rw [std_sort, (List.mergeSort_perm (a :: as) _).length_eq]
        simp
      by_cases hm : t_ ∈ a :: as
      · have hbs : std_binary_search (std_sort (a :: as)) t_ = true := by
          rw [std_binary_search_iff_mem]
          exact ((List.mergeSort_perm (a :: as) _).mem_iff).mpr hm
        rw [hto]
        simp [solution_call, hbs, hm]
      · have hbs : ¬ std_binary_search (std_sort (a :: as)) t_ = true := by
          rw [std_binary_search_iff_mem]
          intro hmem
          exact hm (((List.mergeSort_perm (a :: as) _).mem_iff).mp hmem)
        rw [hto]
        rw [solution_call, if_pos ⟨hlen, fun hb => hbs hb⟩]
        constructor
        · intro heq
          have hx := congrArg (fun s : SolutionHolder => s.x.length) heq
          simp at hx
        · rintro (h | h)
          · cases h
          · exact absurd h hm
  · intro l₁ l₂ hperm
    rcases l₁ with _ | ⟨a, as⟩
    · have h2 : l₂ = [] := hperm.symm.eq_nil
      rw [h2]
    · have hl2 : l₂.length > 0 := by
        rw [← hperm.length_eq]
        simp
      simp only [solution_t_out, if_pos hl2]
      rw [if_pos (by simp : (a :: as).length > 0)]
      exact std_sort_eq_of_perm hperm

/-- Witness for C10: the permutation hypothesis discharged at `[3, 1]` and
`[1, 3]`. -/
theorem solution_records_iff_witness :
    ([3, 1] : List ℚ).Perm [1, 3]
    ∧ solution_t_out [3, 1] = solution_t_out [1, 3] :=
  ⟨List.Perm.swap 1 3 [],
    (solution_records_iff [] ⟨[], []⟩ [] 0).2 [3, 1] [1, 3] (List.Perm.swap 1 3 [])⟩

/-- Claim C4: if the Solution Manager callback returns non-zero at an accepted
step at time `t*`, the Driver halts immediately with the caller-requested-stop
status (not an error), the invocation list contains exactly one invocation per
accepted step up to and including the one at `t*` and nothing further; and
every callback invocation corresponds to an accepted Controller step (never a
rejected attempt, which the Controller retries internally). -/
theorem driver_callback_stop :
    ∀ (cb : state_vector → ℚ → Int) (pre : List (state_vector × ℚ))
      (post : List StepResult) (x : state_vector) (t : ℚ),
      (∀ p ∈ pre, cb p.1 p.2 = 0) → cb x t ≠ 0 →
      (runDriver cb (pre.map (fun p => StepResult.accepted p.1 p.2)
            ++ StepResult.accepted x t :: post)
          = (pre ++ [(x, t)], DriverStatus.stoppedByCaller))
      ∧ ∀ (steps : List StepResult) (p : state_vector × ℚ),
          p ∈ (runDriver cb steps).1 → StepResult.accepted p.1 p.2 ∈ steps := by
  intro cb pre post x t hpre hstop
  constructor
  · induction pre with
    | nil => simp [runDriver, hstop]
    | cons q qs ih =>
        have hq : cb q.1 q.2 = 0 := hpre q (by simp)
        have ih' := ih fun p hp => hpre p (by simp [hp])
        simp only [List.map_cons, List.cons_append, runDriver]
        rw [if_neg (by simp [hq])]
        simp [ih']
  · intro steps
    induction steps with
    | nil =>
        intro p hp
        simp [runDriver] at hp
    | cons s rest ih =>
        intro p hp
        cases s with
        | fatal => simp [runDriver] at hp
        | accepted y u =>
            by_cases hc : cb y u ≠ 0
            · rw [runDriver, if_pos hc] at hp
              simp at hp
              simp [hp]
            · rw [runDriver, if_neg hc] at hp
              simp at hp
              rcases hp with hp | hp
              · simp [hp]
              · exact List.mem_cons_of_mem _ (ih p hp)

/-- Witness for C4: a callback that stops at `t = 2`, one earlier accepted
step, and a pending Controller outcome that is never reached. -/
theorem driver_callback_stop_witness :
    ((fun (_ : state_vector) (u : ℚ) => if u = 2 then (1 : Int) else 0) [5] 2 ≠ 0)
    ∧ runDriver (fun (_ : state_vector) (u : ℚ) => if u = 2 then (1 : Int) else 0)
        ([([1], 0)].map (fun p => StepResult.accepted p.1 p.2)
          ++ StepResult.accepted [5] 2 :: [StepResult.fatal])
        = ([([1], 0), ([5], 2)], DriverStatus.stoppedByCaller) := by
  refine ⟨by norm_num, ?_⟩
  have h := (driver_callback_stop (fun (_ : state_vector) (u : ℚ) => if u = 2 then (1 : Int) else 0)
    [([1], 0)] [StepResult.fatal] [5] 2
    (by
      intro p hp
      simp at hp
      rw [hp]
      norm_num)
    (by norm_num)).1
  simpa using h

/-- The zeroing loop of `set_iparm_for_pardiso` sets every index below the
loop bound to 0 and leaves the rest of the array untouched. -/
theorem foldl_write_zero (n : ℕ) (a : ℕ → Int) (k : ℕ) :
    ((List.range n).foldl (fun b i => writeArr b i 0) a) k
      = if k < n then 0 else a k := by
  induction n with
  | zero => simp
  | succ n ih =>
      rw [List.range_succ, List.foldl_append]
      simp only [List.foldl_cons, List.foldl_nil]
      by_cases hk : k = n
      · simp [writeArr, hk]
      · simp only [writeArr, if_neg hk, ih]
        by_cases h3 : k < n
        · rw [if_pos h3, if_pos (by omega)]
        · rw [if_neg h3, if_neg (by omega)]

theorem zero_iparm_spec (a : ℕ → Int) (k : ℕ) :
    zero_iparm a k = if k < 64 then 0 else a k :=
  foldl_write_zero 64 a k

/-- A write sequence reads the underlying array at one index only through
that same index. -/
theorem applyWrites_congr (ws : List (ℕ × Int)) (a b : ℕ → Int) (k : ℕ)
    (hab : a k = b k) : applyWrites ws a k = applyWrites ws b k := by
  induction ws generalizing a b with
  | nil => exact hab
  | cons w ws ih =>
      simp only [applyWrites, List.foldl_cons]
      refine ih (writeArr a w.1 w.2) (writeArr b w.1 w.2) ?_
      simp only [writeArr]
      split
      · rfl
      · exact hab

theorem iparm_writes1_23 (pc rs pf : Int) (a : ℕ → Int) :
    iparm_writes1 pc rs pf a 23 = pf :=
  rfl

theorem iparm_writes_congr (pc rs pf ps : Int) (a b : ℕ → Int)
    (hab : ∀ j, j < 64 → a j = b j) :
    ∀ k, k < 64 → iparm_writes pc rs pf ps a k = iparm_writes pc rs pf ps b k := by
  intro k hk
  simp only [iparm_writes, iparm_writes1_23, iparm_writes2]
  refine applyWrites_congr _ _ _ k ?_
  by_cases hpf : pf = 1
  · rw [if_pos hpf, if_pos hpf]
    simp only [writeArr, iparm_writes1]
    split
    · rfl
    split
    · rfl
    exact applyWrites_congr _ _ _ k (hab k hk)
  · rw [if_neg hpf, if_neg hpf]
    simp only [iparm_writes1]
    exact applyWrites_congr _ _ _ k (hab k hk)

/-- Claim C6: `set_iparm_for_pardiso` writes all 64 entries of `iparm` (the
result below index 64 is independent of the array's prior contents), sets
`iparm[7]` to `refinement_steps` and `iparm[23]` to `parallel_fact_control`,
and `iparm[10]` (scaling) and `iparm[12]` (matching) both equal 0 exactly when
`parallel_fact_control = 1` and equal 1 otherwise. -/
theorem set_iparm_spec :
    ∀ (pc rs pf ps : Int) (a₁ a₂ : ℕ → Int),
      (∀ k, k < 64 →
          set_iparm_for_pardiso pc rs pf ps a₁ k
            = set_iparm_for_pardiso pc rs pf ps a₂ k)
      ∧ set_iparm_for_pardiso pc rs pf ps a₁ 7 = rs
      ∧ set_iparm_for_pardiso pc rs pf ps a₁ 23 = pf
      ∧ ((set_iparm_for_pardiso pc rs pf ps a₁ 10 = 0
            ∧ set_iparm_for_pardiso pc rs pf ps a₁ 12 = 0) ↔ pf = 1)
      ∧ (pf ≠ 1 → set_iparm_for_pardiso pc rs pf ps a₁ 10 = 1
            ∧ set_iparm_for_pardiso pc rs pf ps a₁ 12 = 1) := by
  intro pc rs pf ps a₁ a₂
  refine ⟨?_, ?_, ?_, ?_, ?_⟩
  · intro k hk
    refine iparm_writes_congr pc rs pf ps _ _ ?_ k hk
    intro j hj
    rw [zero_iparm_spec, zero_iparm_spec, if_pos hj, if_pos hj]
  · by_cases hpf : pf = 1
    · subst hpf
      rfl
    · simp only [set_iparm_for_pardiso, iparm_writes, iparm_writes1_23]
      rw [if_neg hpf]
      rfl
  · by_cases hpf : pf = 1
    · subst hpf
      rfl
    · simp only [set_iparm_for_pardiso, iparm_writes, iparm_writes1_23]
      rw [if_neg hpf]
      rfl
  · by_cases hpf : pf = 1
    · subst hpf
      have h10 : set_iparm_for_pardiso pc rs 1 ps a₁ 10 = 0 := rfl
      have h12 : set_iparm_for_pardiso pc rs 1 ps a₁ 12 = 0 := rfl
      rw [h10, h12]
      simp
    · have h10 : set_iparm_for_pardiso pc rs pf ps a₁ 10 = 1 := by
        simp only [set_iparm_for_pardiso, iparm_writes, iparm_writes1_23]
        rw [if_neg hpf]
        rfl
      have h12 : set_iparm_for_pardiso pc rs pf ps a₁ 12 = 1 := by
        simp only [set_iparm_for_pardiso, iparm_writes, iparm_writes1_23]
        rw [if_neg hpf]
        rfl
      rw [h10, h12]
      norm_num [hpf]
  · intro hpf
    constructor
    · simp only [set_iparm_for_pardiso, iparm_writes, iparm_writes1_23]
      rw [if_neg hpf]
      rfl
    · simp only [set_iparm_for_pardiso, iparm_writes, iparm_writes1_23]
      rw [if_neg hpf]
      rfl

/-- Witness for C6: both hypotheses discharged at concrete inputs
(`parallel_fact_control = 0`, index 3, two different garbage arrays). -/
theorem set_iparm_spec_witness :
    (3 : ℕ) < 64 ∧ (0 : Int) ≠ 1
    ∧ set_iparm_for_pardiso 0 2 0 0 (fun _ => 5) 3
        = set_iparm_for_pardiso 0 2 0 0 (fun _ => 7) 3
    ∧ set_iparm_for_pardiso 0 2 0 0 (fun _ => 5) 10 = 1
    ∧ set_iparm_for_pardiso 0 2 0 0 (fun _ => 5) 12 = 1 := by
  obtain ⟨h1, _, _, _, h5⟩ := set_iparm_spec 0 2 0 0 (fun _ => 5) (fun _ => 7)
  obtain ⟨h5a, h5b⟩ := h5 (by decide)
  exact ⟨by decide, by decide, h1 3 (by decide), h5a, h5b⟩

end daecpp
